import Mathlib

/-!
Verification development for the realtime-document-analysis core.

The TypeScript source is shallowly embedded: numeric values (page coordinates,
confidences, scale factors) are modelled over `ℚ` where the code only performs
ring operations, comparisons, `Math.floor` / `Math.ceil` / `Math.round` and
division, and over `ℝ` where the code calls the transcendental functions
`Math.sqrt` / `Math.exp`.  `Math.round x` is `⌊x + 1/2⌋`.  Fallible external
collaborators (the recognizer) are passed in as explicit `Except` values;
in-place pixel-buffer mutation is modelled by functional update of `ℕ → _`
buffers, which is faithful because every filter reads from a frozen copy of its
input (or, for the block-local contrast filter, reads each pixel before any
write to it).
-/

namespace RDA

/-- Axis-aligned bounding box as stored by the code: top-left corner `x`, `y`
plus `width` and `height`, in page or canvas coordinates. -/
structure Bbox where
  x : ℚ
  y : ℚ
  width : ℚ
  height : ℚ
deriving DecidableEq, Repr

/-- An `OCRRegion` as produced by the extraction code: page index, semantic
type, bounding box, extracted text and confidence.  The `id` field of the
source (`crypto.randomUUID()`, external nondeterminism) is omitted. -/
structure OCRRegion where
  page : ℕ
  type : String
  bbox : Bbox
  text : String
  confidence : ℚ
deriving DecidableEq, Repr

/-- A positioned text fragment delivered by the structured-text source (a
PDF.js text item): `str` is the content, `x` and `y` are the translation
components `transform[4]` and `transform[5]`, plus `width` and `height`. -/
structure TextItem where
  str : String
  x : ℚ
  y : ℚ
  width : ℚ
  height : ℚ
deriving DecidableEq, Repr

/-- `LINE_HEIGHT_THRESHOLD` of `extractPdfText` (pixels). -/
def LINE_HEIGHT_THRESHOLD : ℚ := 5

/-- `MIN_REGION_HEIGHT` of `extractPdfText` (pixels). -/
def MIN_REGION_HEIGHT : ℚ := 20

/-- The sort comparator of `extractPdfText`: descending `y`
(`b.transform[5] - a.transform[5]`), except that when the vertical difference
is within `LINE_HEIGHT_THRESHOLD` the order is by ascending `x`. -/
def itemCmp (a b : TextItem) : ℚ :=
  let yDiff := b.y - a.y
  if |yDiff| > LINE_HEIGHT_THRESHOLD then yDiff else a.x - b.x

/-- Stable insertion of `a` into an already-sorted list: `a` goes before the
first element it strictly precedes and after elements that compare equal to
it, matching the stable `Array.prototype.sort` of the runtime. -/
def insertItem (a : TextItem) : List TextItem → List TextItem
  | [] => [a]
  | b :: l => if itemCmp a b ≤ 0 then a :: b :: l else b :: insertItem a l

/-- Stable insertion sort of the text items with the comparator of
`extractPdfText`. -/
def sortItems : List TextItem → List TextItem
  | [] => []
  | a :: l => insertItem a (sortItems l)

/-- JavaScript `String.prototype.trim()`: strip leading and trailing
whitespace. -/
def jsTrim (s : String) : String :=
  ⟨((s.data.dropWhile Char.isWhitespace).reverse.dropWhile
      Char.isWhitespace).reverse⟩

/-- The mutable accumulator `currentRegion` of `extractPdfText`. -/
structure CurRegion where
  bbox : Bbox
  text : String
  lastY : ℚ
deriving DecidableEq, Repr

/-- Closing the accumulator: the region is pushed only when its height reaches
`MIN_REGION_HEIGHT`; its text is trimmed and its confidence fixed at 1. -/
def closeRegion (pageIndex : ℕ) (regions : List OCRRegion) (cur : CurRegion) :
    List OCRRegion :=
  if cur.bbox.height ≥ MIN_REGION_HEIGHT then
    regions ++ [{ page := pageIndex, type := "paragraph", bbox := cur.bbox,
                  text := jsTrim cur.text, confidence := 1 }]
  else regions

/-- One iteration of the grouping loop of `extractPdfText`: whitespace-only
items are skipped; an item within `2 × LINE_HEIGHT_THRESHOLD` of the current
region's last `y` and within its horizontal span widened by 50 units extends
the region (text concatenated, box grown); otherwise the current region is
closed and a fresh one starts at the item's box `{x, y - height, width,
height}`. -/
def stepItem (pageIndex : ℕ) (st : List OCRRegion × Option CurRegion)
    (item : TextItem) : List OCRRegion × Option CurRegion :=
  if jsTrim item.str = "" then st
  else
    match st with
    | (regions, some cur) =>
      if |item.y - cur.lastY| ≤ LINE_HEIGHT_THRESHOLD * 2 ∧
         item.x ≥ cur.bbox.x - 50 ∧
         item.x ≤ cur.bbox.x + cur.bbox.width + 50 then
        (regions,
         some { bbox := { x := cur.bbox.x, y := cur.bbox.y,
                          width := max cur.bbox.width
                            (item.x + item.width - cur.bbox.x),
                          height := max cur.bbox.height
                            (|item.y - cur.bbox.y| + item.height) },
                text := cur.text ++ item.str,
                lastY := item.y })
      else
        (closeRegion pageIndex regions cur,
         some { bbox := { x := item.x, y := item.y - item.height,
                          width := item.width, height := item.height },
                text := item.str, lastY := item.y })
    | (regions, none) =>
        (regions,
         some { bbox := { x := item.x, y := item.y - item.height,
                          width := item.width, height := item.height },
                text := item.str, lastY := item.y })

/-- The region-grouping core of `extractPdfText` (the Grouper).  The PDF
plumbing (`getDocument` / `getPage` / `getTextContent`) is external, so the
page's text items are passed directly; an empty item list yields `[]`, as does
the source's early return. -/
def extractPdfText (items : List TextItem) (pageIndex : ℕ) : List OCRRegion :=
  let st := (sortItems items).foldl (stepItem pageIndex) ([], none)
  match st.2 with
  | some cur => closeRegion pageIndex st.1 cur
  | none => st.1

/-- A canvas, reduced to the dimensions the modelled code reads from it. -/
structure Canvas where
  width : ℕ
  height : ℕ
deriving DecidableEq, Repr

/-- `smartTextExtraction` (the Orchestrator): try native PDF text first; when
the region list is non-empty return it, otherwise run the OCR fallback.  The
second component counts the invocations of `ocrFullPageFn`, making the
collaborator call count observable. -/
def smartTextExtraction (items : List TextItem) (canvas : Canvas)
    (pageIndex : ℕ) (ocrFullPageFn : Canvas → ℕ → List OCRRegion) :
    List OCRRegion × ℕ :=
  let pdfRegions := extractPdfText items pageIndex
  if pdfRegions.length > 0 then (pdfRegions, 0)
  else (ocrFullPageFn canvas pageIndex, 1)

/-- `ocrFullPage`: wraps the external recognizer.  The whole `try` block
(preprocessing plus `Tesseract.recognize`) is summarised by the `recognize`
argument: on success one full-page region carries the trimmed recognized text
and the reported confidence; on failure one full-page region with confidence 0
and an error-marker text embedding the failure detail is returned instead. -/
def ocrFullPage (canvas : Canvas) (page : ℕ)
    (recognize : Except String (String × ℚ)) : List OCRRegion :=
  match recognize with
  | .ok res =>
      [{ page := page, type := "paragraph",
         bbox := { x := 0, y := 0, width := (canvas.width : ℚ),
                   height := (canvas.height : ℚ) },
         text := jsTrim res.1, confidence := res.2 }]
  | .error e =>
      [{ page := page, type := "paragraph",
         bbox := { x := 0, y := 0, width := (canvas.width : ℚ),
                   height := (canvas.height : ℚ) },
         text := "[OCR Error: " ++ e ++ "]", confidence := 0 }]

/-- Estimated text size class accepted by `getOptimalConfig`. -/
inductive TextSize where
  | small
  | medium
  | large
deriving DecidableEq, Repr

/-- Content class accepted by `getOptimalConfig`. -/
inductive TextType where
  | paragraph
  | single_line
  | multi_column
  | handwriting
deriving DecidableEq, Repr

/-- An `OCRConfig` parameter bag, reduced to the knobs the selector logic
writes or the verified properties read.  `profile` stands for all remaining
keys of the bag, which the selector copies unchanged from the chosen base
profile (it tags which profile was spread).  The source stores the numeric
knobs as decimal strings; they are modelled by their numeric values. -/
structure OCRConfig where
  profile : String
  tessedit_pageseg_mode : String
  textord_min_xheight : ℚ
  textord_noise_sizefraction : ℚ
  textord_heavy_nr : ℚ
deriving DecidableEq, Repr

/-- `HIGH_QUALITY_CONFIG`: PSM.AUTO, `textord_min_xheight` 10,
`textord_noise_sizefraction` 0.5, `textord_heavy_nr` 1. -/
def HIGH_QUALITY_CONFIG : OCRConfig :=
  { profile := "high_quality", tessedit_pageseg_mode := "PSM.AUTO",
    textord_min_xheight := 10, textord_noise_sizefraction := 1/2,
    textord_heavy_nr := 1 }

/-- `SMALL_TEXT_CONFIG`: the high-quality profile with PSM.SINGLE_BLOCK,
`textord_min_xheight` 6 and `textord_noise_sizefraction` 0.3. -/
def SMALL_TEXT_CONFIG : OCRConfig :=
  { HIGH_QUALITY_CONFIG with
    profile := "small_text",
    tessedit_pageseg_mode := "PSM.SINGLE_BLOCK",
    textord_min_xheight := 6, textord_noise_sizefraction := 3/10 }

/-- `SINGLE_LINE_CONFIG`: the high-quality profile with PSM.SINGLE_TEXT_LINE
and heavy noise reduction disabled. -/
def SINGLE_LINE_CONFIG : OCRConfig :=
  { HIGH_QUALITY_CONFIG with
    profile := "single_line",
    tessedit_pageseg_mode := "PSM.SINGLE_TEXT_LINE",
    textord_heavy_nr := 0 }

/-- `MULTI_COLUMN_CONFIG`: the high-quality profile with PSM.SINGLE_COLUMN. -/
def MULTI_COLUMN_CONFIG : OCRConfig :=
  { HIGH_QUALITY_CONFIG with
    profile := "multi_column",
    tessedit_pageseg_mode := "PSM.SINGLE_COLUMN" }

/-- `HANDWRITING_CONFIG`: the high-quality profile with OEM.DEFAULT and
relaxed adaptation thresholds (summarised by the profile tag). -/
def HANDWRITING_CONFIG : OCRConfig :=
  { HIGH_QUALITY_CONFIG with profile := "handwriting" }

/-- `getOptimalConfig` (the Configuration Selector): pick the base profile by
content class (paragraph content uses the small-text profile when the text
size class is small, else the high-quality profile), then apply the
resolution override: above 2,000,000 pixels set `textord_noise_sizefraction`
to 0.4 and `textord_min_xheight` to 8; below 500,000 pixels set them to 0.8
and 12 and disable heavy noise reduction; otherwise keep the base. -/
def getOptimalConfig (imageWidth imageHeight : ℕ)
    (estimatedTextSize : TextSize) (textType : TextType) : OCRConfig :=
  let config := match textType with
    | .single_line => SINGLE_LINE_CONFIG
    | .multi_column => MULTI_COLUMN_CONFIG
    | .handwriting => HANDWRITING_CONFIG
    | .paragraph =>
        if estimatedTextSize = .small then SMALL_TEXT_CONFIG
        else HIGH_QUALITY_CONFIG
  let pixelCount := imageWidth * imageHeight
  if pixelCount > 2000000 then
    { config with textord_noise_sizefraction := 2/5, textord_min_xheight := 8 }
  else if pixelCount < 500000 then
    { config with
      textord_noise_sizefraction := 4/5, textord_min_xheight := 12,
      textord_heavy_nr := 0 }
  else config

/-- JavaScript `Math.round`: round half up, `⌊x + 1/2⌋`. -/
def jsRound {α : Type} [LinearOrderedField α] [FloorRing α] (x : α) : ℤ :=
  ⌊x + 1/2⌋

/-- The output-canvas dimensions computed by `enhanceImageForOCR`:
`min(Math.floor(srcDim * scale), maxDim)` per axis.  The maximum dimensions
(3000 by default at the call boundary) are integral. -/
def enhancedDimensions (w h : ℕ) (scale : ℚ) (maxWidth maxHeight : ℤ) :
    ℤ × ℤ :=
  (min ⌊(w : ℚ) * scale⌋ maxWidth, min ⌊(h : ℚ) * scale⌋ maxHeight)

/-- Modelled from the spec claim, for comparison with the source (not itself a
translation of the source): output dimensions `min(ceil(srcDim × scale),
maxDim)` per axis. -/
def specCeilDimensions (w h : ℕ) (scale : ℚ) (maxWidth maxHeight : ℤ) :
    ℤ × ℤ :=
  (min ⌈(w : ℚ) * scale⌉ maxWidth, min ⌈(h : ℚ) * scale⌉ maxHeight)

/-- The output-canvas dimensions computed by `loadHighQualityImage`: target
dimensions are the bitmap dimensions times `scale`; with
`preserveAspectRatio` the two maximum-dimension clamps run in sequence, each
recomputing the other axis from the aspect ratio `bw / bh`; without it each
axis is clamped independently; both axes are floored on assignment to the
canvas. -/
def loadHighQualityImageDims (bw bh : ℕ) (scale maxWidth maxHeight : ℚ)
    (preserveAspectRatio : Bool) : ℤ × ℤ :=
  let targetWidth : ℚ := (bw : ℚ) * scale
  let targetHeight : ℚ := (bh : ℚ) * scale
  let dims :=
    if preserveAspectRatio then
      let aspectRatio : ℚ := (bw : ℚ) / (bh : ℚ)
      let d1 := if targetWidth > maxWidth then (maxWidth, maxWidth / aspectRatio)
                else (targetWidth, targetHeight)
      if d1.2 > maxHeight then (maxHeight * aspectRatio, maxHeight) else d1
    else
      (min targetWidth maxWidth, min targetHeight maxHeight)
  (⌊dims.1⌋, ⌊dims.2⌋)

/-- `getOptimalScale`: target pixel density 300, current density
`sqrt(width * height) / 8.5`, the ratio clamped to `[1, 4]` and rounded to one
decimal digit. -/
noncomputable def getOptimalScale (originalWidth originalHeight : ℝ) : ℝ :=
  let targetPixelDensity : ℝ := 300
  let currentDensity : ℝ :=
    Real.sqrt (originalWidth * originalHeight) / (17/2)
  let scale : ℝ := min 4 (max 1 (targetPixelDensity / currentDensity))
  (jsRound (scale * 10) : ℝ) / 10

/-!
Kernel filters.  A pixel buffer is a flat channel-interleaved `ℕ → _` map
(index `(y * width + x) * 4 + c`); every filter leaves indices it does not
write (the alpha channel, out-of-range indices, and for the unsharp mask the
border pixels) at their input value.  Writes into the `Uint8ClampedArray` are
modelled by rounding and clamping the stored value to `[0, 255]`.  Pixel
values are `ℝ` for the Gaussian blur (whose kernel uses `Math.exp`) and `ℚ`
for the purely arithmetic filters.
-/

/-- `createGaussianKernel` length: `Math.ceil(sigma * 3) * 2 + 1`. -/
noncomputable def gaussKernelSize (sigma : ℝ) : ℕ :=
  (⌈sigma * 3⌉).toNat * 2 + 1

/-- The kernel center `Math.floor(size / 2)`. -/
noncomputable def gaussKernelCenter (sigma : ℝ) : ℕ :=
  gaussKernelSize sigma / 2

/-- Unnormalized entry `i` of the Gaussian kernel:
`Math.exp(-(x * x) / (2 * sigma * sigma))` at offset `x = i - center`. -/
noncomputable def gaussKernelRaw (sigma : ℝ) (i : ℕ) : ℝ :=
  Real.exp (-(((i : ℝ) - (gaussKernelCenter sigma : ℝ)) *
      ((i : ℝ) - (gaussKernelCenter sigma : ℝ))) / (2 * sigma * sigma))

/-- The normalization denominator of `createGaussianKernel`. -/
noncomputable def gaussKernelSum (sigma : ℝ) : ℝ :=
  ∑ i in Finset.range (gaussKernelSize sigma), gaussKernelRaw sigma i

/-- Entry `i` of the normalized Gaussian kernel built by
`createGaussianKernel` (the array is modelled as an indexed family). -/
noncomputable def gaussKernel (sigma : ℝ) (i : ℕ) : ℝ :=
  gaussKernelRaw sigma i / gaussKernelSum sigma

/-- Edge-clamped sample column `Math.min(Math.max(x + i - offset, 0),
width - 1)`. -/
def clampedCol (x : ℕ) (i offset : ℕ) (width : ℕ) : ℤ :=
  min (max ((x : ℤ) + (i : ℤ) - (offset : ℤ)) 0) ((width : ℤ) - 1)

/-- `applyGaussianBlur`: for every in-range pixel and each of the R, G, B
channels, a 1-D horizontal convolution of the frozen input copy with the
Gaussian kernel, normalized by the accumulated weight sum, rounded and stored
(the function contains no vertical pass). -/
noncomputable def applyGaussianBlur (data : ℕ → ℝ) (width height : ℕ)
    (sigma : ℝ) : ℕ → ℝ :=
  fun idx =>
    let c := idx % 4
    let p := idx / 4
    let x := p % width
    let y := p / width
    if p < width * height ∧ c < 3 then
      let size := gaussKernelSize sigma
      let offset := size / 2
      let r := ∑ i in Finset.range size,
        gaussKernel sigma i *
          data (((y * width : ℤ) + clampedCol x i offset width) * 4 + c).toNat
      let weightSum := ∑ i in Finset.range size, gaussKernel sigma i
      ((min 255 (max 0 (jsRound (r / weightSum))) : ℤ) : ℝ)
    else data idx

/-- Modelled from the spec claim, for comparison with the source: one pass
convolving each row with a normalized kernel of the given size, with
edge-clamped sampling, rounded into 8-bit storage. -/
noncomputable def specRowConvolve (kernel : ℕ → ℝ) (size : ℕ)
    (data : ℕ → ℝ) (width height : ℕ) : ℕ → ℝ :=
  fun idx =>
    let c := idx % 4
    let p := idx / 4
    let x := p % width
    let y := p / width
    if p < width * height ∧ c < 3 then
      let offset := size / 2
      ((min 255 (max 0 (jsRound (∑ i in Finset.range size,
        kernel i *
          data (((y * width : ℤ) + clampedCol x i offset width) * 4 +
            c).toNat))) : ℤ) : ℝ)
    else data idx

/-- Modelled from the spec claim, for comparison with the source: the
symmetric vertical pass, convolving each column with the kernel. -/
noncomputable def specColConvolve (kernel : ℕ → ℝ) (size : ℕ)
    (data : ℕ → ℝ) (width height : ℕ) : ℕ → ℝ :=
  fun idx =>
    let c := idx % 4
    let p := idx / 4
    let x := p % width
    let y := p / width
    if p < width * height ∧ c < 3 then
      let offset := size / 2
      ((min 255 (max 0 (jsRound (∑ i in Finset.range size,
        kernel i *
          data ((min (max ((y : ℤ) + (i : ℤ) - (offset : ℤ)) 0)
              ((height : ℤ) - 1) * width + (x : ℤ)) * 4 +
            c).toNat))) : ℤ) : ℝ)
    else data idx

/-- Modelled from the spec claim, for comparison with the source: the blur as
the claim states it, a horizontal pass followed by a vertical pass with the
one generated kernel. -/
noncomputable def specRowsThenCols (kernel : ℕ → ℝ) (size : ℕ)
    (data : ℕ → ℝ) (width height : ℕ) : ℕ → ℝ :=
  specColConvolve kernel size (specRowConvolve kernel size data width height)
    width height

/-- The 3×3 sharpening kernel of `applyUnsharpMask`, row-major. -/
def unsharpKernel : List ℚ := [0, -1, 0, -1, 5, -1, 0, -1, 0]

/-- `applyUnsharpMask`: 3×3 convolution of the frozen input copy over the
interior pixels (the 1-pixel border is left untouched), per R, G, B channel,
rounded and clamped to `[0, 255]`. -/
def applyUnsharpMask (data : ℕ → ℚ) (width height : ℕ) : ℕ → ℚ :=
  fun idx =>
    let c := idx % 4
    let p := idx / 4
    let x := p % width
    let y := p / width
    if 1 ≤ x ∧ x + 1 < width ∧ 1 ≤ y ∧ y + 1 < height ∧ c < 3 then
      let r := ∑ ky in Finset.Icc (-1 : ℤ) 1, ∑ kx in Finset.Icc (-1 : ℤ) 1,
        unsharpKernel.getD ((ky + 1) * 3 + (kx + 1)).toNat 0 *
          data ((((y : ℤ) + ky) * width + ((x : ℤ) + kx)) * 4 + c).toNat
      ((max 0 (min 255 (jsRound r)) : ℤ) : ℚ)
    else data idx

/-- The luminance formula `0.299 * r + 0.587 * g + 0.114 * b`. -/
def lum (r g b : ℚ) : ℚ := 299/1000 * r + 587/1000 * g + 114/1000 * b

/-- The unrounded luminance of the pixel at `(x, y)`. -/
def lumAt (data : ℕ → ℚ) (width : ℕ) (x y : ℕ) : ℚ :=
  lum (data ((y * width + x) * 4)) (data ((y * width + x) * 4 + 1))
    (data ((y * width + x) * 4 + 2))

/-- `applyAdaptiveContrastEnhancement`: per 64×64 block, a 256-bin histogram
of rounded luminances and its CDF normalized into `[0, 255]`; every pixel's
R, G, B channels are scaled by `equalized / max(1, gray)`, rounded and
clamped.  The source reads and writes the live buffer, but each block's
histogram is computed before any pixel of that block is written and blocks
are disjoint, so the per-pixel functional reading of the input is faithful. -/
def applyAdaptiveContrastEnhancement (data : ℕ → ℚ) (width height : ℕ) :
    ℕ → ℚ :=
  fun idx =>
    let c := idx % 4
    let p := idx / 4
    let x := p % width
    let y := p / width
    if p < width * height ∧ c < 3 then
      let bx := x / 64 * 64
      let b2 := y / 64 * 64
      let endX := min (bx + 64) width
      let endY := min (b2 + 64) height
      let total := (endX - bx) * (endY - b2)
      let grayAt := fun (q : ℕ × ℕ) => jsRound (lumAt data width q.1 q.2)
      let hist := fun (g : ℤ) =>
        ((Finset.Ico bx endX ×ˢ Finset.Ico b2 endY).filter
          (fun q => grayAt q = g)).card
      let cdf := fun (g : ℤ) => ∑ i in Finset.Icc (0 : ℤ) g, (hist i : ℚ)
      let gray := grayAt (x, y)
      let enhanced := jsRound (cdf gray / (total : ℚ) * 255)
      let factor : ℚ := (enhanced : ℚ) / max 1 (gray : ℚ)
      ((max 0 (min 255 (jsRound (data idx * factor))) : ℤ) : ℚ)
    else data idx

/-- `applyAdaptiveThresholding`: per pixel, the mean luminance over the
square neighborhood of half-width 16 clipped to the image gives the local
threshold (mean minus 5); above-threshold pixels are brightened by 1.2 and
below-threshold pixels darkened by 0.8 (each clamped), and the resulting gray
value is written to all of R, G, B from the frozen input copy. -/
def applyAdaptiveThresholding (data : ℕ → ℚ) (width height : ℕ) : ℕ → ℚ :=
  fun idx =>
    let c := idx % 4
    let p := idx / 4
    let x := p % width
    let y := p / width
    if p < width * height ∧ c < 3 then
      let nbhd := (Finset.Icc (-16 : ℤ) 16 ×ˢ Finset.Icc (-16 : ℤ) 16).filter
        (fun d => 0 ≤ (y : ℤ) + d.1 ∧ (y : ℤ) + d.1 < height ∧
          0 ≤ (x : ℤ) + d.2 ∧ (x : ℤ) + d.2 < width)
      let s := ∑ d in nbhd,
        lumAt data width ((x : ℤ) + d.2).toNat ((y : ℤ) + d.1).toNat
      let localMean := s / (nbhd.card : ℚ)
      let currentGray := lumAt data width x y
      let threshold := localMean - 5
      let enhancedGray :=
        if currentGray > threshold then min 255 (currentGray * (12/10))
        else max 0 (currentGray * (8/10))
      ((min 255 (max 0 (jsRound enhancedGray)) : ℤ) : ℚ)
    else data idx

/-- Modelled from the spec claim, for comparison with the source: the
geometric union of two boxes, each spanning `[x, x + width] × [y, y +
height]`. -/
def bboxUnion (a b : Bbox) : Bbox :=
  { x := min a.x b.x, y := min a.y b.y,
    width := max (a.x + a.width) (b.x + b.width) - min a.x b.x,
    height := max (a.y + a.height) (b.y + b.height) - min a.y b.y }

/-- Modelled from the spec claim, for comparison with the source: output
dimensions match the input aspect ratio `bw / bh` within a rounding tolerance
of one pixel when they are within one pixel per axis of exact-ratio
dimensions. -/
def aspectWithinOnePixel (outW outH : ℤ) (bw bh : ℕ) : Prop :=
  ∃ W H : ℚ, W = (bw : ℚ) / (bh : ℚ) * H ∧
    |(outW : ℚ) - W| ≤ 1 ∧ |(outH : ℚ) - H| ≤ 1

/-- C1: for every page whose structured-text extraction returns a non-empty
region list, `smartTextExtraction` returns exactly that list and the
recognizer fallback `ocrFullPageFn` is invoked zero times. -/
theorem smartTextExtraction_structured (items : List TextItem)
    (canvas : Canvas) (pageIndex : ℕ)
    (ocrFullPageFn : Canvas → ℕ → List OCRRegion)
    (hne : extractPdfText items pageIndex ≠ []) :
    smartTextExtraction items canvas pageIndex ocrFullPageFn =
      (extractPdfText items pageIndex, 0) := by
  unfold smartTextExtraction
  rw [if_pos (List.length_pos.mpr hne)]

/-- Witness for C1 at a concrete one-fragment page. -/
theorem smartTextExtraction_structured_witness :
    extractPdfText [⟨"Hello", 10, 100, 50, 25⟩] 0 ≠ [] ∧
    smartTextExtraction [⟨"Hello", 10, 100, 50, 25⟩] ⟨800, 600⟩ 0
        (fun _ _ => []) =
      (extractPdfText [⟨"Hello", 10, 100, 50, 25⟩] 0, 0) := by
  have hne : extractPdfText [⟨"Hello", 10, 100, 50, 25⟩] 0 ≠ [] := by
    have ht : jsTrim "Hello" = "Hello" := by decide
    have hs0 : ¬("Hello" = "") := by decide
    norm_num [extractPdfText, sortItems, insertItem, itemCmp, stepItem,
      closeRegion, MIN_REGION_HEIGHT, LINE_HEIGHT_THRESHOLD, ht, hs0]
  exact ⟨hne, smartTextExtraction_structured _ _ _ _ hne⟩

/-- C2: when the external recognizer call fails, `ocrFullPage` returns a list
of length exactly 1 whose single region covers the full page, has confidence
0, and has the error-marker text embedding the failure detail. -/
theorem ocrFullPage_error_region (canvas : Canvas) (page : ℕ) (e : String) :
    (ocrFullPage canvas page (.error e)).length = 1 ∧
    ocrFullPage canvas page (.error e) =
      [{ page := page, type := "paragraph",
         bbox := { x := 0, y := 0, width := (canvas.width : ℚ),
                   height := (canvas.height : ℚ) },
         text := "[OCR Error: " ++ e ++ "]", confidence := 0 }] :=
  ⟨rfl, rfl⟩

/-- C3 counterexample: at a 1×1 source with scale 1.5 the output dimensions
are `min(floor(dim × scale), maxDim) = 1` per axis, not the claimed
`min(ceil(dim × scale), maxDim) = 2`. -/
theorem enhancedDimensions_floor_not_ceil_cex :
    enhancedDimensions 1 1 (3/2) 3000 3000 = (1, 1) ∧
    specCeilDimensions 1 1 (3/2) 3000 3000 = (2, 2) ∧
    enhancedDimensions 1 1 (3/2) 3000 3000 ≠
      specCeilDimensions 1 1 (3/2) 3000 3000 := by
  have hf : ⌊(3/2 : ℚ)⌋ = 1 := by norm_num
  have hc : ⌈(3/2 : ℚ)⌉ = 2 := by rw [Int.ceil_eq_iff] <;> norm_num
  have e1 : enhancedDimensions 1 1 (3/2) 3000 3000 = (1, 1) := by
    norm_num [enhancedDimensions, hf, min_def]
  have e2 : specCeilDimensions 1 1 (3/2) 3000 3000 = (2, 2) := by
    norm_num [specCeilDimensions, hc, min_def]
  exact ⟨e1, e2, by rw [e1, e2]; decide⟩

/-- C3 (amended): for positive source dimensions and scale, the output of
`enhanceImageForOCR` is exactly `min(floor(dim × scale), maxDim)` per axis,
and in particular never exceeds the configured ceiling. -/
theorem enhancedDimensions_floor_min (w h : ℕ) (s : ℚ) (maxW maxH : ℤ)
    (hw : 0 < w) (hh : 0 < h) (hs : 0 < s) :
    enhancedDimensions w h s maxW maxH =
      (min ⌊(w : ℚ) * s⌋ maxW, min ⌊(h : ℚ) * s⌋ maxH) ∧
    (enhancedDimensions w h s maxW maxH).1 ≤ maxW ∧
    (enhancedDimensions w h s maxW maxH).2 ≤ maxH :=
  ⟨rfl, min_le_right _ _, min_le_right _ _⟩

/-- Witness for C3 (amended) at a 100×50 source scaled by 2.5. -/
theorem enhancedDimensions_floor_min_witness :
    0 < 100 ∧ 0 < 50 ∧ (0 : ℚ) < 5/2 ∧
    (enhancedDimensions 100 50 (5/2) 3000 3000 =
      (min ⌊(100 : ℚ) * (5/2)⌋ 3000, min ⌊(50 : ℚ) * (5/2)⌋ 3000) ∧
     (enhancedDimensions 100 50 (5/2) 3000 3000).1 ≤ 3000 ∧
     (enhancedDimensions 100 50 (5/2) 3000 3000).2 ≤ 3000) :=
  ⟨by norm_num, by norm_num, by norm_num,
    enhancedDimensions_floor_min 100 50 (5/2) 3000 3000 (by norm_num)
      (by norm_num) (by norm_num)⟩

/-- C7 counterexample: a single fragment whose text carries trailing
whitespace (still non-whitespace overall, height 25 ≥ 20) is emitted with its
text trimmed, so the region text is not the fragment's text. -/
theorem extractPdfText_single_trim_cex :
    jsTrim "a " ≠ "" ∧ (20 : ℚ) ≤ 25 ∧
    extractPdfText [⟨"a ", 0, 30, 10, 25⟩] 0 =
      [{ page := 0, type := "paragraph", bbox := ⟨0, 5, 10, 25⟩,
         text := "a", confidence := 1 }] ∧
    "a" ≠ "a " := by
  have ht : jsTrim "a " = "a" := by decide
  have hs0 : ¬("a" = "") := by decide
  refine ⟨by decide, by norm_num, ?_, by decide⟩
  norm_num [extractPdfText, sortItems, insertItem, itemCmp, stepItem,
    closeRegion, MIN_REGION_HEIGHT, LINE_HEIGHT_THRESHOLD, ht, hs0]

/-- C7 (amended): for a single fragment with non-whitespace text and height
at least 20 the output is exactly one region with confidence 1.0 whose text
is the fragment's text trimmed of surrounding whitespace; an empty fragment
list gives an empty output, not an error. -/
theorem extractPdfText_single_fragment (s : String) (x y w h : ℚ) (p : ℕ)
    (hs : jsTrim s ≠ "") (hh : (20 : ℚ) ≤ h) :
    extractPdfText [⟨s, x, y, w, h⟩] p =
      [{ page := p, type := "paragraph", bbox := ⟨x, y - h, w, h⟩,
         text := jsTrim s, confidence := 1 }] ∧
    extractPdfText [] p = [] := by
  refine ⟨?_, rfl⟩
  simp [extractPdfText, sortItems, insertItem, stepItem, closeRegion,
    MIN_REGION_HEIGHT, hs, hh]

/-- Witness for C7 (amended) at a concrete fragment. -/
theorem extractPdfText_single_fragment_witness :
    jsTrim "Hello" ≠ "" ∧ (20 : ℚ) ≤ 25 ∧
    (extractPdfText [⟨"Hello", 10, 100, 50, 25⟩] 0 =
      [{ page := 0, type := "paragraph", bbox := ⟨10, 100 - 25, 50, 25⟩,
         text := jsTrim "Hello", confidence := 1 }] ∧
     extractPdfText [] 0 = []) :=
  ⟨by decide, by norm_num,
    extractPdfText_single_fragment "Hello" 10 100 50 25 0 (by decide)
      (by norm_num)⟩

/-- C6 counterexample: two same-`y` fragments with a 5-unit gap (heights 15
each, combined height 30 ≥ 20) merge into one region whose text is the
left-to-right concatenation, but whose bounding box is `{0, 85, 25, 30}` —
its height is the sum of the two heights — while the union of the fragment
boxes is `{0, 85, 25, 15}`. -/
theorem extractPdfText_merge_bbox_cex :
    extractPdfText [⟨"A", 0, 100, 10, 15⟩, ⟨"B", 15, 100, 10, 15⟩] 0 =
      [{ page := 0, type := "paragraph", bbox := ⟨0, 85, 25, 30⟩,
         text := "AB", confidence := 1 }] ∧
    bboxUnion ⟨0, 85, 10, 15⟩ ⟨15, 85, 10, 15⟩ = ⟨0, 85, 25, 15⟩ ∧
    (⟨0, 85, 25, 30⟩ : Bbox) ≠ ⟨0, 85, 25, 15⟩ := by
  have ha : jsTrim "A" = "A" := by decide
  have hb : jsTrim "B" = "B" := by decide
  have hab : jsTrim ("A" ++ "B") = "AB" := by decide
  have ha0 : ¬("A" = "") := by decide
  have hb0 : ¬("B" = "") := by decide
  refine ⟨?_, ?_, ?_⟩
  · norm_num [extractPdfText, sortItems, insertItem, itemCmp, stepItem,
      closeRegion, MIN_REGION_HEIGHT, LINE_HEIGHT_THRESHOLD, ha, hb, hab,
      ha0, hb0, max_def, abs]
  · norm_num [bboxUnion, max_def, min_def]
  · intro hEq
    have := congrArg Bbox.height hEq
    norm_num at this

/-- C6 (amended): two non-whitespace fragments at the same `y`, the second
starting `g < 50` units right of the first's end, with combined height at
least 20, merge into exactly one region; its text is the trimmed left-to-right
concatenation and its box keeps the first fragment's `x` and top `y - h1` and
spans the union horizontally (`w1 + g + w2`), but its height is the sum
`h1 + h2` of the fragment heights rather than the union height. -/
theorem extractPdfText_merge_adjacent (t1 t2 : String) (x1 y w1 h1 w2 h2 g : ℚ)
    (p : ℕ) (ht1 : jsTrim t1 ≠ "") (ht2 : jsTrim t2 ≠ "")
    (hw1 : 0 ≤ w1) (hw2 : 0 ≤ w2) (hh1 : 0 ≤ h1) (hh2 : 0 ≤ h2)
    (hg0 : 0 ≤ g) (hg : g < 50) (hmin : 20 ≤ h1 + h2) :
    extractPdfText [⟨t1, x1, y, w1, h1⟩, ⟨t2, x1 + w1 + g, y, w2, h2⟩] p =
      [{ page := p, type := "paragraph",
         bbox := { x := x1, y := y - h1, width := w1 + g + w2,
                   height := h1 + h2 },
         text := jsTrim (t1 ++ t2), confidence := 1 }] := by
  have hsort :
      sortItems [⟨t1, x1, y, w1, h1⟩, ⟨t2, x1 + w1 + g, y, w2, h2⟩] =
        [⟨t1, x1, y, w1, h1⟩, ⟨t2, x1 + w1 + g, y, w2, h2⟩] := by
    simp only [sortItems, insertItem, itemCmp]
    rw [if_pos]
    simp only [sub_self, abs_zero, LINE_HEIGHT_THRESHOLD]
    rw [if_neg (by norm_num)]
    linarith
  have hstep1 : stepItem p ([], none) ⟨t1, x1, y, w1, h1⟩ =
      ([], some ⟨⟨x1, y - h1, w1, h1⟩, t1, y⟩) := by
    simp [stepItem, ht1]
  have hstep2 : stepItem p ([], some ⟨⟨x1, y - h1, w1, h1⟩, t1, y⟩)
        ⟨t2, x1 + w1 + g, y, w2, h2⟩ =
      ([], some ⟨⟨x1, y - h1, w1 + g + w2, h1 + h2⟩, t1 ++ t2, y⟩) := by
    have hc1 : |y - y| ≤ LINE_HEIGHT_THRESHOLD * 2 := by
      rw [sub_self, abs_zero, LINE_HEIGHT_THRESHOLD]; norm_num
    have hc2 : x1 + w1 + g ≥ x1 - 50 := by linarith
    have hc3 : x1 + w1 + g ≤ x1 + w1 + 50 := by linarith
    have hwidth : max w1 (x1 + w1 + g + w2 - x1) = w1 + g + w2 := by
      rw [max_eq_right (by linarith)]; ring
    have hheight : max h1 (|y - (y - h1)| + h2) = h1 + h2 := by
      rw [sub_sub_cancel, abs_of_nonneg hh1, max_eq_right (by linarith)]
    simp only [stepItem]
    rw [if_neg ht2, if_pos ⟨hc1, hc2, hc3⟩]
    rw [hwidth, hheight]
  have hclose : closeRegion p []
        ⟨⟨x1, y - h1, w1 + g + w2, h1 + h2⟩, t1 ++ t2, y⟩ =
      [{ page := p, type := "paragraph",
         bbox := { x := x1, y := y - h1, width := w1 + g + w2,
                   height := h1 + h2 },
         text := jsTrim (t1 ++ t2), confidence := 1 }] := by
    simp [closeRegion, MIN_REGION_HEIGHT, hmin]
  unfold extractPdfText
  rw [hsort]
  simp only [List.foldl_cons, List.foldl_nil]
  rw [hstep1, hstep2]
  exact hclose

/-- Witness for C6 (amended) at the fragments of the counterexample. -/
theorem extractPdfText_merge_adjacent_witness :
    jsTrim "A" ≠ "" ∧ jsTrim "B" ≠ "" ∧ (0 : ℚ) ≤ 5 ∧ (5 : ℚ) < 50 ∧
    (20 : ℚ) ≤ 15 + 15 ∧
    extractPdfText [⟨"A", 0, 100, 10, 15⟩, ⟨"B", 0 + 10 + 5, 100, 10, 15⟩]
        0 =
      [{ page := 0, type := "paragraph",
         bbox := { x := 0, y := 100 - 15, width := 10 + 5 + 10,
                   height := 15 + 15 },
         text := jsTrim ("A" ++ "B"), confidence := 1 }] :=
  ⟨by decide, by decide, by norm_num, by norm_num, by norm_num,
    extractPdfText_merge_adjacent "A" "B" 0 100 10 15 10 15 5 0 (by decide)
      (by decide) (by norm_num) (by norm_num) (by norm_num) (by norm_num)
      (by norm_num) (by norm_num) (by norm_num)⟩

/-- C5 counterexample: with small text size and paragraph content, the
high-resolution call (2000×1001 > 2,000,000 px) yields minimum character
height 8 and noise-size fraction 0.4, while the medium-resolution call
(1000×1000 px) keeps the small-text profile values 6 and 0.3 — the high-res
values are higher, not strictly lower. -/
theorem getOptimalConfig_smallText_override_cex :
    2000 * 1001 > 2000000 ∧ 500000 ≤ 1000 * 1000 ∧ 1000 * 1000 ≤ 2000000 ∧
    (getOptimalConfig 2000 1001 .small .paragraph).textord_min_xheight = 8 ∧
    (getOptimalConfig 1000 1000 .small .paragraph).textord_min_xheight = 6 ∧
    ¬((getOptimalConfig 2000 1001 .small .paragraph).textord_min_xheight <
      (getOptimalConfig 1000 1000 .small .paragraph).textord_min_xheight) := by
  refine ⟨by norm_num, by norm_num, by norm_num, ?_, ?_, ?_⟩ <;>
    norm_num [getOptimalConfig, SMALL_TEXT_CONFIG, HIGH_QUALITY_CONFIG]

/-- C5 (amended): for every text size and content class except small text
with paragraph content (whose base profile is the small-text profile), the
high-resolution config's minimum character height and noise-size fraction are
strictly lower than those of the same call with a pixel count in the medium
range. -/
theorem getOptimalConfig_highres_lower (w1 h1 w2 h2 : ℕ) (ts : TextSize)
    (tt : TextType) (hne : ¬(ts = .small ∧ tt = .paragraph))
    (hhi : w1 * h1 > 2000000) (hlo : 500000 ≤ w2 * h2)
    (hmd : w2 * h2 ≤ 2000000) :
    (getOptimalConfig w1 h1 ts tt).textord_min_xheight <
      (getOptimalConfig w2 h2 ts tt).textord_min_xheight ∧
    (getOptimalConfig w1 h1 ts tt).textord_noise_sizefraction <
      (getOptimalConfig w2 h2 ts tt).textord_noise_sizefraction := by
  have h2hi : ¬(w2 * h2 > 2000000) := by omega
  have h2lo : ¬(w2 * h2 < 500000) := by omega
  simp only [getOptimalConfig]
  rw [if_pos hhi, if_neg h2hi, if_neg h2lo]
  cases tt <;> cases ts <;>
    simp_all [SMALL_TEXT_CONFIG, HIGH_QUALITY_CONFIG, SINGLE_LINE_CONFIG,
      MULTI_COLUMN_CONFIG, HANDWRITING_CONFIG] <;>
    norm_num

/-- Witness for C5 (amended) with medium text size and paragraph content. -/
theorem getOptimalConfig_highres_lower_witness :
    ¬(TextSize.medium = .small ∧ TextType.paragraph = .paragraph) ∧
    2000 * 1001 > 2000000 ∧ 500000 ≤ 1000 * 1000 ∧ 1000 * 1000 ≤ 2000000 ∧
    ((getOptimalConfig 2000 1001 .medium .paragraph).textord_min_xheight <
      (getOptimalConfig 1000 1000 .medium .paragraph).textord_min_xheight ∧
     (getOptimalConfig 2000 1001 .medium .paragraph).textord_noise_sizefraction <
      (getOptimalConfig 1000 1000 .medium .paragraph).textord_noise_sizefraction) :=
  ⟨by simp, by norm_num, by norm_num, by norm_num,
    getOptimalConfig_highres_lower 2000 1001 1000 1000 .medium .paragraph
      (by simp) (by norm_num) (by norm_num) (by norm_num)⟩

/-- C4 counterexample: `enhanceImageForOCR` on a 4000×1000 source with scale
1 and a 3000×3000 ceiling clamps each axis independently, producing
3000×1000, which is not within one pixel of the input aspect ratio 4 on any
reading (`preserveAspectRatio` is accepted by its options record but never
read). -/
theorem enhance_ignores_aspect_cex :
    enhancedDimensions 4000 1000 1 3000 3000 = (3000, 1000) ∧
    ¬ aspectWithinOnePixel 3000 1000 4000 1000 := by
  constructor
  · norm_num [enhancedDimensions, min_def]
  · rintro ⟨W, H, hWH, hW, hH⟩
    rw [abs_le] at hW hH
    norm_num at hWH hW hH
    linarith [hWH, hW.1, hW.2, hH.1, hH.2]

/-- The rational (pre-floor) dimensions computed by `loadHighQualityImage`
with `preserveAspectRatio`: they carry the exact input aspect ratio and stay
within both maxima. -/
theorem loadHighQualityImageDims_pre (bw bh : ℕ) (s maxW maxH : ℚ)
    (hbw : 0 < (bw : ℚ)) (hbh : 0 < (bh : ℚ)) (hs : 0 < s)
    (hW : 0 < maxW) (hH : 0 < maxH) :
    ∃ W H : ℚ, loadHighQualityImageDims bw bh s maxW maxH true = (⌊W⌋, ⌊H⌋) ∧
      W = (bw : ℚ) / (bh : ℚ) * H ∧ W ≤ maxW ∧ H ≤ maxH := by
  have ha0 : 0 < (bw : ℚ) / (bh : ℚ) := div_pos hbw hbh
  have hane : (bw : ℚ) / (bh : ℚ) ≠ 0 := ne_of_gt ha0
  have hbhne : (bh : ℚ) ≠ 0 := ne_of_gt hbh
  unfold loadHighQualityImageDims
  dsimp only
  rw [if_pos rfl]
  by_cases h1 : (bw : ℚ) * s > maxW
  · rw [if_pos h1]
    dsimp only
    by_cases h2 : maxW / ((bw : ℚ) / (bh : ℚ)) > maxH
    · rw [if_pos h2]
      refine ⟨maxH * ((bw : ℚ) / (bh : ℚ)), maxH, rfl, by ring, ?_, le_refl _⟩
      exact le_of_lt ((lt_div_iff ha0).mp h2)
    · rw [if_neg h2]
      refine ⟨maxW, maxW / ((bw : ℚ) / (bh : ℚ)), rfl, ?_, le_refl _,
        le_of_not_lt h2⟩
      rw [mul_div_cancel₀ _ hane]
  · rw [if_neg h1]
    dsimp only
    by_cases h2 : (bh : ℚ) * s > maxH
    · rw [if_pos h2]
      refine ⟨maxH * ((bw : ℚ) / (bh : ℚ)), maxH, rfl, by ring, ?_, le_refl _⟩
      have htw : ((bh : ℚ) * s) * ((bw : ℚ) / (bh : ℚ)) = (bw : ℚ) * s := by
        field_simp
        ring
      have : maxH * ((bw : ℚ) / (bh : ℚ)) < ((bh : ℚ) * s) * ((bw : ℚ) / (bh : ℚ)) :=
        (mul_lt_mul_right ha0).mpr h2
      rw [htw] at this
      linarith [le_of_not_lt h1]
    · rw [if_neg h2]
      refine ⟨(bw : ℚ) * s, (bh : ℚ) * s, rfl, ?_, le_of_not_lt h1,
        le_of_not_lt h2⟩
      field_simp
      ring

/-- C4 (amended): clamping holds everywhere — `enhanceImageForOCR` output
dimensions never exceed the per-axis maxima, and so do the
`loadHighQualityImage` dimensions — but aspect-ratio preservation within one
pixel holds only on the image-loading path (`loadHighQualityImage` with
`preserveAspectRatio`); `enhanceImageForOCR` ignores the flag and clamps
each axis independently. -/
theorem dims_clamped_and_load_preserves_aspect (w h : ℕ) (s : ℚ)
    (maxW maxH : ℤ) (bw bh : ℕ) (ls lmaxW lmaxH : ℚ)
    (hbw : 0 < bw) (hbh : 0 < bh) (hls : 0 < ls)
    (hlW : 0 < lmaxW) (hlH : 0 < lmaxH) :
    (enhancedDimensions w h s maxW maxH).1 ≤ maxW ∧
    (enhancedDimensions w h s maxW maxH).2 ≤ maxH ∧
    ((loadHighQualityImageDims bw bh ls lmaxW lmaxH true).1 : ℚ) ≤ lmaxW ∧
    ((loadHighQualityImageDims bw bh ls lmaxW lmaxH true).2 : ℚ) ≤ lmaxH ∧
    aspectWithinOnePixel (loadHighQualityImageDims bw bh ls lmaxW lmaxH true).1
      (loadHighQualityImageDims bw bh ls lmaxW lmaxH true).2 bw bh := by
  obtain ⟨W, H, hEq, hWH, hWle, hHle⟩ :=
    loadHighQualityImageDims_pre bw bh ls lmaxW lmaxH
      (by exact_mod_cast hbw) (by exact_mod_cast hbh) hls hlW hlH
  refine ⟨min_le_right _ _, min_le_right _ _, ?_, ?_, ?_⟩
  · rw [hEq]
    exact le_trans (Int.floor_le W) hWle
  · rw [hEq]
    exact le_trans (Int.floor_le H) hHle
  · refine ⟨W, H, hWH, ?_, ?_⟩
    · rw [hEq]
      rw [abs_le]
      constructor
      · linarith [Int.lt_floor_add_one W]
      · linarith [Int.floor_le W]
    · rw [hEq]
      rw [abs_le]
      constructor
      · linarith [Int.lt_floor_add_one H]
      · linarith [Int.floor_le H]

/-- Witness for C4 (amended) at the counterexample's loading geometry. -/
theorem dims_clamped_and_load_preserves_aspect_witness :
    0 < 4000 ∧ 0 < 1000 ∧ (0 : ℚ) < 1 ∧ (0 : ℚ) < 3000 ∧
    ((enhancedDimensions 4000 1000 1 3000 3000).1 ≤ 3000 ∧
     (enhancedDimensions 4000 1000 1 3000 3000).2 ≤ 3000 ∧
     ((loadHighQualityImageDims 4000 1000 1 3000 3000 true).1 : ℚ) ≤ 3000 ∧
     ((loadHighQualityImageDims 4000 1000 1 3000 3000 true).2 : ℚ) ≤ 3000 ∧
     aspectWithinOnePixel (loadHighQualityImageDims 4000 1000 1 3000 3000 true).1
       (loadHighQualityImageDims 4000 1000 1 3000 3000 true).2 4000 1000) :=
  ⟨by norm_num, by norm_num, by norm_num, by norm_num,
    dims_clamped_and_load_preserves_aspect 4000 1000 1 3000 3000 4000 1000 1
      3000 3000 (by norm_num) (by norm_num) (by norm_num) (by norm_num)
      (by norm_num)⟩

/-- The clamp-then-round tail of `getOptimalScale` stays in `[1, 4]`. -/
theorem clampRound_bounds (t : ℝ) :
    1 ≤ ((jsRound (min 4 (max 1 t) * 10) : ℤ) : ℝ) / 10 ∧
    ((jsRound (min 4 (max 1 t) * 10) : ℤ) : ℝ) / 10 ≤ 4 := by
  have hs1 : (1 : ℝ) ≤ min 4 (max 1 t) := le_min (by norm_num) (le_max_left _ _)
  have hs4 : min 4 (max 1 t) ≤ 4 := min_le_left _ _
  unfold jsRound
  constructor
  · have hlo : (10 : ℤ) ≤ ⌊min 4 (max 1 t) * 10 + 1/2⌋ :=
      Int.le_floor.mpr (by push_cast; linarith)
    have hlo2 : ((10 : ℤ) : ℝ) ≤ ((⌊min 4 (max 1 t) * 10 + 1/2⌋ : ℤ) : ℝ) := by
      exact_mod_cast hlo
    push_cast at hlo2
    linarith
  · have h1 : ((⌊min 4 (max 1 t) * 10 + 1/2⌋ : ℤ) : ℝ) ≤
        min 4 (max 1 t) * 10 + 1/2 := Int.floor_le _
    have h2 : ((⌊min 4 (max 1 t) * 10 + 1/2⌋ : ℤ) : ℝ) < ((41 : ℤ) : ℝ) := by
      push_cast
      linarith
    have h3 : (⌊min 4 (max 1 t) * 10 + 1/2⌋ : ℤ) ≤ 40 := by
      have := Int.cast_lt.mp h2
      omega
    have h4 : ((⌊min 4 (max 1 t) * 10 + 1/2⌋ : ℤ) : ℝ) ≤ 40 := by
      exact_mod_cast h3
    linarith

/-- The clamp-then-round tail of `getOptimalScale` is monotone. -/
theorem clampRound_mono {t1 t2 : ℝ} (h : t2 ≤ t1) :
    ((jsRound (min 4 (max 1 t2) * 10) : ℤ) : ℝ) / 10 ≤
      ((jsRound (min 4 (max 1 t1) * 10) : ℤ) : ℝ) / 10 := by
  have hmm : min 4 (max 1 t2) ≤ min 4 (max 1 t1) :=
    min_le_min le_rfl (max_le_max le_rfl h)
  have hfl : ⌊min 4 (max 1 t2) * 10 + 1/2⌋ ≤ ⌊min 4 (max 1 t1) * 10 + 1/2⌋ :=
    Int.floor_mono (by linarith)
  unfold jsRound
  have hc : ((⌊min 4 (max 1 t2) * 10 + 1/2⌋ : ℤ) : ℝ) ≤
      ((⌊min 4 (max 1 t1) * 10 + 1/2⌋ : ℤ) : ℝ) := by exact_mod_cast hfl
  linarith

/-- C9: for positive dimensions, `getOptimalScale` lies in `[1, 4]`, is an
integer multiple of 0.1 (rounded to one decimal digit), and is monotonically
non-increasing as the pixel count `width × height` increases. -/
theorem getOptimalScale_bounds_mono (w1 h1 w2 h2 : ℝ)
    (hw1 : 0 < w1) (hh1 : 0 < h1) (hw2 : 0 < w2) (hh2 : 0 < h2)
    (hprod : w1 * h1 ≤ w2 * h2) :
    1 ≤ getOptimalScale w1 h1 ∧ getOptimalScale w1 h1 ≤ 4 ∧
    (∃ n : ℤ, getOptimalScale w1 h1 = (n : ℝ) / 10) ∧
    getOptimalScale w2 h2 ≤ getOptimalScale w1 h1 := by
  have he : ∀ w h : ℝ, getOptimalScale w h =
      ((jsRound (min 4 (max 1 (300 / (Real.sqrt (w * h) / (17/2)))) * 10) :
        ℤ) : ℝ) / 10 := fun w h => rfl
  have hp1 : 0 < Real.sqrt (w1 * h1) := Real.sqrt_pos.mpr (mul_pos hw1 hh1)
  have hq : Real.sqrt (w1 * h1) ≤ Real.sqrt (w2 * h2) := Real.sqrt_le_sqrt hprod
  have hA1 : 0 < Real.sqrt (w1 * h1) / (17/2) := div_pos hp1 (by norm_num)
  have hA12 : Real.sqrt (w1 * h1) / (17/2) ≤ Real.sqrt (w2 * h2) / (17/2) := by
    linarith
  have ht : 300 / (Real.sqrt (w2 * h2) / (17/2)) ≤
      300 / (Real.sqrt (w1 * h1) / (17/2)) :=
    div_le_div_of_nonneg_left (by norm_num) hA1 hA12
  rw [he w1 h1, he w2 h2]
  exact ⟨(clampRound_bounds _).1, (clampRound_bounds _).2, ⟨_, rfl⟩,
    clampRound_mono ht⟩

/-- Witness for C9 at 1×1 and 2×2 pages. -/
theorem getOptimalScale_bounds_mono_witness :
    (0 : ℝ) < 1 ∧ (0 : ℝ) < 2 ∧ (1 : ℝ) * 1 ≤ 2 * 2 ∧
    (1 ≤ getOptimalScale 1 1 ∧ getOptimalScale 1 1 ≤ 4 ∧
     (∃ n : ℤ, getOptimalScale 1 1 = (n : ℝ) / 10) ∧
     getOptimalScale 2 2 ≤ getOptimalScale 1 1) :=
  ⟨by norm_num, by norm_num, by norm_num,
    getOptimalScale_bounds_mono 1 1 2 2 (by norm_num) (by norm_num)
      (by norm_num) (by norm_num) (by norm_num)⟩

/-- C10: every kernel filter writes only the R, G, B channels — at every
alpha index (`idx % 4 = 3`) the output buffer equals the input buffer. -/
theorem filters_preserve_alpha (dR : ℕ → ℝ) (dQ : ℕ → ℚ) (w h : ℕ)
    (sigma : ℝ) (idx : ℕ) (halpha : idx % 4 = 3) :
    applyGaussianBlur dR w h sigma idx = dR idx ∧
    applyUnsharpMask dQ w h idx = dQ idx ∧
    applyAdaptiveContrastEnhancement dQ w h idx = dQ idx ∧
    applyAdaptiveThresholding dQ w h idx = dQ idx := by
  refine ⟨?_, ?_, ?_, ?_⟩
  · unfold applyGaussianBlur
    simp only []
    rw [if_neg]
    rintro ⟨-, hc⟩
    omega
  · unfold applyUnsharpMask
    simp only []
    rw [if_neg]
    rintro ⟨-, -, -, -, hc⟩
    omega
  · unfold applyAdaptiveContrastEnhancement
    simp only []
    rw [if_neg]
    rintro ⟨-, hc⟩
    omega
  · unfold applyAdaptiveThresholding
    simp only []
    rw [if_neg]
    rintro ⟨-, hc⟩
    omega

/-- Witness for C10 at the first alpha byte of a 2×2 buffer. -/
theorem filters_preserve_alpha_witness :
    3 % 4 = 3 ∧
    (applyGaussianBlur (fun _ => 0) 2 2 (1/2) 3 = (fun _ => (0 : ℝ)) 3 ∧
     applyUnsharpMask (fun _ => 0) 2 2 3 = (fun _ => (0 : ℚ)) 3 ∧
     applyAdaptiveContrastEnhancement (fun _ => 0) 2 2 3 =
       (fun _ => (0 : ℚ)) 3 ∧
     applyAdaptiveThresholding (fun _ => 0) 2 2 3 = (fun _ => (0 : ℚ)) 3) :=
  ⟨by decide,
    filters_preserve_alpha (fun _ => 0) (fun _ => 0) 2 2 (1/2) 3 (by decide)⟩

/-- The Gaussian normalization denominator is positive. -/
theorem gaussKernelSum_pos (sigma : ℝ) : 0 < gaussKernelSum sigma := by
  unfold gaussKernelSum
  apply Finset.sum_pos
  · intro i _
    unfold gaussKernelRaw
    exact Real.exp_pos _
  · refine Finset.nonempty_range_iff.mpr ?_
    unfold gaussKernelSize
    omega

/-- Every normalized Gaussian kernel entry is positive. -/
theorem gaussKernel_pos (sigma : ℝ) (i : ℕ) : 0 < gaussKernel sigma i := by
  unfold gaussKernel
  refine div_pos ?_ (gaussKernelSum_pos sigma)
  unfold gaussKernelRaw
  exact Real.exp_pos _

/-- The normalized Gaussian kernel sums to 1. -/
theorem gaussKernel_sum_one (sigma : ℝ) :
    ∑ i in Finset.range (gaussKernelSize sigma), gaussKernel sigma i = 1 := by
  unfold gaussKernel
  rw [← Finset.sum_div]
  exact div_self (ne_of_gt (gaussKernelSum_pos sigma))

/-- C8 (amended): `applyGaussianBlur` is exactly ONE pass — the horizontal
convolution of each row with the generated kernel, edge-clamped — with kernel
radius `⌈3σ⌉` (size `2⌈3σ⌉ + 1`, center `⌈3σ⌉`) and entries normalized to
sum to 1; no vertical pass follows. -/
theorem gaussianBlur_single_horizontal_pass (data : ℕ → ℝ) (w h : ℕ)
    (sigma : ℝ) (hsigma : 0 < sigma) :
    (∀ idx, applyGaussianBlur data w h sigma idx =
      specRowConvolve (gaussKernel sigma) (gaussKernelSize sigma) data w h
        idx) ∧
    gaussKernelSize sigma = 2 * (⌈3 * sigma⌉).toNat + 1 ∧
    gaussKernelCenter sigma = (⌈3 * sigma⌉).toNat ∧
    ∑ i in Finset.range (gaussKernelSize sigma), gaussKernel sigma i = 1 := by
  refine ⟨?_, ?_, ?_, gaussKernel_sum_one sigma⟩
  · intro idx
    unfold applyGaussianBlur specRowConvolve
    dsimp only
    by_cases hc : idx / 4 < w * h ∧ idx % 4 < 3
    · rw [if_pos hc, if_pos hc, gaussKernel_sum_one, div_one]
    · rw [if_neg hc, if_neg hc]
  · unfold gaussKernelSize
    rw [mul_comm sigma 3]
    omega
  · unfold gaussKernelCenter gaussKernelSize
    rw [mul_comm sigma 3]
    omega

/-- Witness for C8 (amended) at the σ = 0.5 call of the pipeline. -/
theorem gaussianBlur_single_horizontal_pass_witness :
    (0 : ℝ) < 1/2 ∧
    ((∀ idx, applyGaussianBlur (fun _ => 0) 1 2 (1/2) idx =
        specRowConvolve (gaussKernel (1/2)) (gaussKernelSize (1/2))
          (fun _ => 0) 1 2 idx) ∧
     gaussKernelSize (1/2) = 2 * (⌈3 * (1/2 : ℝ)⌉).toNat + 1 ∧
     gaussKernelCenter (1/2) = (⌈3 * (1/2 : ℝ)⌉).toNat ∧
     ∑ i in Finset.range (gaussKernelSize (1/2 : ℝ)), gaussKernel (1/2) i =
       1) :=
  ⟨by norm_num,
    gaussianBlur_single_horizontal_pass (fun _ => 0) 1 2 (1/2) (by norm_num)⟩

/-- A 1×2 test buffer: pixel (0,0) black, pixel (0,1) white, both opaque. -/
def cexBlurData : ℕ → ℝ := fun idx =>
  if idx < 4 then (if idx = 3 then 255 else 0) else 255

/-- At σ = 0.5 the generated kernel has 5 entries. -/
theorem gaussKernelSize_half : gaussKernelSize (1/2 : ℝ) = 5 := by
  unfold gaussKernelSize
  have hc : ⌈(1/2 : ℝ) * 3⌉ = 2 := by
    rw [Int.ceil_eq_iff] <;> norm_num
  rw [hc]
  rfl

/-- At σ = 0.5 the kernel center is 2. -/
theorem gaussKernelCenter_half : gaussKernelCenter (1/2 : ℝ) = 2 := by
  unfold gaussKernelCenter
  rw [gaussKernelSize_half]

/-- The source blur leaves the black pixel of the 1×2 buffer at 0: in a
1-pixel-wide image every horizontally clamped sample is the pixel itself. -/
theorem applyGaussianBlur_half_at0 :
    applyGaussianBlur cexBlurData 1 2 (1/2) 0 = 0 := by
  unfold applyGaussianBlur
  norm_num [gaussKernelSize_half, Finset.sum_range_succ, clampedCol,
    cexBlurData, jsRound]

/-- The horizontal pass also leaves the black pixel at 0. -/
theorem specRowConvolve_half_at0 :
    specRowConvolve (gaussKernel (1/2)) 5 cexBlurData 1 2 0 = 0 := by
  unfold specRowConvolve
  norm_num [Finset.sum_range_succ, clampedCol, cexBlurData, jsRound]

/-- The σ = 0.5 kernel over its 5 entries sums to 1. -/
theorem gaussKernel_half_sum_one :
    ∑ i in Finset.range 5, gaussKernel (1/2 : ℝ) i = 1 := by
  have h := gaussKernel_sum_one (1/2 : ℝ)
  rwa [gaussKernelSize_half] at h

/-- The horizontal pass maps the white pixel to 255. -/
theorem specRowConvolve_half_at4 :
    specRowConvolve (gaussKernel (1/2)) 5 cexBlurData 1 2 4 = 255 := by
  unfold specRowConvolve
  norm_num [Finset.sum_range_succ, clampedCol, cexBlurData, jsRound]
  have h : gaussKernel (1/2 : ℝ) 0 * 255 + gaussKernel (1/2) 1 * 255 +
      gaussKernel (1/2) 2 * 255 + gaussKernel (1/2) 3 * 255 +
      gaussKernel (1/2) 4 * 255 = 255 := by
    have hs := gaussKernel_half_sum_one
    simp [Finset.sum_range_succ] at hs
    nlinarith [hs]
  rw [h]
  norm_num

/-- Lower bound `exp(-2) ≥ 1/9`, from `e < 3`. -/
theorem exp_neg_two_lb : (1/9 : ℝ) ≤ Real.exp (-2) := by
  have h1 : Real.exp 1 ≤ 3 :=
    le_of_lt (lt_trans Real.exp_one_lt_d9 (by norm_num))
  have h2 : Real.exp 2 ≤ 9 := by
    have he : Real.exp 2 = Real.exp 1 * Real.exp 1 := by
      rw [← Real.exp_add]; norm_num
    rw [he]
    nlinarith [Real.exp_pos 1, le_of_lt (Real.exp_pos 1)]
  have h3 : Real.exp (-2 : ℝ) = 1 / Real.exp 2 := by
    rw [Real.exp_neg]; rw [one_div]
  rw [h3]
  exact le_trans (by norm_num) (one_div_le_one_div_of_le (Real.exp_pos 2) h2)

/-- The σ = 0.5 normalization denominator is at most 5. -/
theorem gaussKernelSum_half_le : gaussKernelSum (1/2 : ℝ) ≤ 5 := by
  unfold gaussKernelSum
  rw [gaussKernelSize_half]
  have hle : ∀ i ∈ Finset.range 5, gaussKernelRaw (1/2 : ℝ) i ≤ 1 := by
    intro i _
    unfold gaussKernelRaw
    rw [← Real.exp_zero]
    apply Real.exp_le_exp.mpr
    rw [Real.exp_zero]
    apply div_nonpos_of_nonpos_of_nonneg
    · exact neg_nonpos_of_nonneg (mul_self_nonneg _)
    · norm_num
  calc ∑ i in Finset.range 5, gaussKernelRaw (1/2 : ℝ) i
      ≤ ∑ _i in Finset.range 5, (1 : ℝ) := Finset.sum_le_sum hle
    _ = 5 := by simp

/-- The raw kernel entry one step from the center is `exp(-2)` at σ = 0.5. -/
theorem gaussKernelRaw_half_three :
    gaussKernelRaw (1/2 : ℝ) 3 = Real.exp (-2) := by
  unfold gaussKernelRaw
  rw [gaussKernelCenter_half]
  norm_num

/-- The normalized kernel entry one step from the center is at least 1/45. -/
theorem gaussKernel_half_three_lb : (1/45 : ℝ) ≤ gaussKernel (1/2) 3 := by
  unfold gaussKernel
  rw [gaussKernelRaw_half_three]
  calc (1/45 : ℝ) = (1/9) / 5 := by norm_num
    _ ≤ Real.exp (-2) / gaussKernelSum (1/2) :=
        div_le_div (le_of_lt (Real.exp_pos _)) exp_neg_two_lb
          (gaussKernelSum_pos _) gaussKernelSum_half_le

/-- The claimed horizontal-then-vertical blur brightens the black pixel: the
vertical pass pulls mass from the white pixel below. -/
theorem specRowsThenCols_half_pos :
    (1 : ℝ) ≤ specRowsThenCols (gaussKernel (1/2)) (gaussKernelSize (1/2))
      cexBlurData 1 2 0 := by
  unfold specRowsThenCols specColConvolve
  norm_num [gaussKernelSize_half, Finset.sum_range_succ,
    specRowConvolve_half_at0, specRowConvolve_half_at4, jsRound]
  simp only [Int.reduceToNat]
  rw [specRowConvolve_half_at4]
  have h1 : (1 : ℤ) ≤ ⌊gaussKernel (1/2 : ℝ) 3 * 255 +
      gaussKernel (1/2) 4 * 255 + 1/2⌋ :=
    Int.le_floor.mpr (by
      push_cast
      nlinarith [gaussKernel_half_three_lb, gaussKernel_pos (1/2 : ℝ) 4])
  exact_mod_cast h1

/-- C8 counterexample: on a 1×2 buffer (black above white) at the pipeline's
σ = 0.5, `applyGaussianBlur` leaves the black pixel's red channel at 0 — a
1-pixel-wide image is a fixed point of the horizontal pass — while the
claimed row-then-column convolution with the same kernel brightens it to at
least 1, so the blur does not equal the claimed two-pass convolution. -/
theorem gaussianBlur_no_vertical_pass_cex :
    applyGaussianBlur cexBlurData 1 2 (1/2) 0 = 0 ∧
    applyGaussianBlur cexBlurData 1 2 (1/2) 0 ≠
      specRowsThenCols (gaussKernel (1/2)) (gaussKernelSize (1/2))
        cexBlurData 1 2 0 := by
  refine ⟨applyGaussianBlur_half_at0, ?_⟩
  rw [applyGaussianBlur_half_at0]
  intro h0
  have hb := specRowsThenCols_half_pos
  rw [← h0] at hb
  linarith

end RDA
